import Mathlib

/-!
# The rmtfs shared-memory window (`sharedmem.c`)

A shallow embedding of `sharedmem.c`.  The file targets an LP64 Linux host
(the source prints a `uint64_t` with `%lx`), so

* `unsigned` has 32 bits,
* `size_t`, `uint64_t` and `void *` have 64 bits,
* `int64_t` is a two's-complement 64-bit integer.

Unsigned machine values are natural numbers and every C operation that can
wrap carries its reduction explicitly.  A function returning `void *` returns
`Option Nat`: `none` is the statement `return NULL`, `some p` is the pointer
value `p` computed by the other `return`.
-/

namespace Rmtfs

/-! ## Machine types -/

/-- Number of values of the C type `unsigned`. -/
def UINT_RANGE : Nat := 2 ^ 32

/-- Number of values of `uint64_t`, of `size_t` and of a pointer. -/
def U64_RANGE : Nat := 2 ^ 64

/-- Conversion of a `uint64_t` value to `int64_t` (two's complement). -/
def to_int64 (x : Nat) : Int :=
  if x % U64_RANGE < 2 ^ 63 then ((x % U64_RANGE : Nat) : Int)
  else ((x % U64_RANGE : Nat) : Int) - (2 : Int) ^ 64

/-- Pointer plus integer on a flat 64-bit address space. -/
def ptr_add (p n : Nat) : Nat := (p + n) % U64_RANGE

/-- Pointer minus integer on a flat 64-bit address space. -/
def ptr_sub (p n : Nat) : Nat := (p + (U64_RANGE - n % U64_RANGE)) % U64_RANGE

/-- The errno value `EINVAL` of Linux. -/
def EINVAL : Int := 22

/-- The value `(void *) -1` that `mmap` returns on failure. -/
def MAP_FAILED : Nat := U64_RANGE - 1

/-- A byte of a file or of memory. -/
abbrev Byte := Fin 256

/-- Byte order of the host. -/
inductive Endian where
  | little
  | big
deriving DecidableEq

/-! ## Data model -/

/-- The C `struct rmtfs_mem`: `address` and `size` are `uint64_t`, `base` is a
`void *`, `fd` is an `int`. -/
structure rmtfs_mem where
  address : Nat
  size : Nat
  base : Nat
  fd : Int
deriving DecidableEq

/-- A device-tree node directory: `reg` is the content of its `reg` file, or
`none` when `openat(dirfd, "reg", O_RDONLY)` fails. -/
structure Node where
  reg : Option (List Byte)

/-- One entry returned by `readdir`: its name, and the node behind it, `none`
when `openat(basefd, d_name, O_DIRECTORY)` fails. -/
structure dirent where
  d_name : List Char
  node : Option Node

/-- The part of the operating system that `rmtfs_mem_open` talks to. -/
structure Env where
  /-- Host byte order. -/
  host : Endian
  /-- Result of `malloc`: `none` for `NULL`, else the not yet initialised block. -/
  malloc : Option rmtfs_mem
  /-- Entries of `/proc/device-tree/reserved-memory/` in `readdir` order, `none`
  when `fdopendir` fails. -/
  reserved_memory : Option (List dirent)
  /-- Result of opening `/dev/mem`; `none` when the descriptor is negative. -/
  dev_mem : Option Int
  /-- Result of `mmap(0, length, ..., fd, offset)`; `none` for `MAP_FAILED`. -/
  mmap : Nat → Int → Nat → Option Nat

/-! ## Library functions used by the source -/

/-- The libc `strncmp` on NUL-terminated strings given without their NUL. -/
def strncmp : List Char → List Char → Nat → Int
  | _, _, 0 => 0
  | [], [], _ + 1 => 0
  | [], c :: _, _ + 1 => -(c.toNat : Int)
  | c :: _, [], _ + 1 => (c.toNat : Int)
  | a :: s1, b :: s2, n + 1 =>
    if a = b then strncmp s1 s2 n else (a.toNat : Int) - (b.toNat : Int)

/-- The system call `read` on a regular file at offset 0: the first `count`
bytes of the file; its return value is the length of this list. -/
def read (file : List Byte) (count : Nat) : List Byte := file.take count

/-- Value of an unsigned integer object whose bytes in memory are `bytes`. -/
def load (host : Endian) (bytes : List Byte) : Nat :=
  match host with
  | .little => bytes.foldr (fun b acc => b.val + 256 * acc) 0
  | .big => bytes.foldl (fun acc b => 256 * acc + b.val) 0

/-- Byte swap of a 32-bit value. -/
def bswap_32 (x : Nat) : Nat :=
  (x % 256) * 2 ^ 24 + (x / 2 ^ 8 % 256) * 2 ^ 16 + (x / 2 ^ 16 % 256) * 2 ^ 8
    + x / 2 ^ 24 % 256

/-- Byte swap of a 64-bit value. -/
def bswap_64 (x : Nat) : Nat :=
  (x % 256) * 2 ^ 56 + (x / 2 ^ 8 % 256) * 2 ^ 48 + (x / 2 ^ 16 % 256) * 2 ^ 40
    + (x / 2 ^ 24 % 256) * 2 ^ 32 + (x / 2 ^ 32 % 256) * 2 ^ 24
    + (x / 2 ^ 40 % 256) * 2 ^ 16 + (x / 2 ^ 48 % 256) * 2 ^ 8 + x / 2 ^ 56 % 256

/-- The `endian.h` function `be32toh`. -/
def be32toh (host : Endian) (x : Nat) : Nat :=
  match host with
  | .little => bswap_32 x
  | .big => x

/-- The `endian.h` function `be64toh`. -/
def be64toh (host : Endian) (x : Nat) : Nat :=
  match host with
  | .little => bswap_64 x
  | .big => x

/-! ## The functions of `sharedmem.c` -/

/-- Lines 144-155 of `rmtfs_mem_enumerate`: read at most `sizeof(reg)` = 16
bytes of the `reg` file into the union and decode them by the count read.
Returns the new value of `ret` and of `*rmem`. -/
def read_reg (host : Endian) (rmem : rmtfs_mem) (file : List Byte) : Int × rmtfs_mem :=
  let reg := read file 16
  let n := reg.length
  if n = 2 * 4 then
    (0, { rmem with address := be32toh host (load host (reg.take 4)),
                    size := be32toh host (load host ((reg.drop 4).take 4)) })
  else if n = 2 * 8 then
    (0, { rmem with address := be64toh host (load host (reg.take 8)),
                    size := be64toh host (load host ((reg.drop 8).take 8)) })
  else
    (-1, rmem)

/-- Lines 128-158 of `rmtfs_mem_enumerate`, the work done on the entry that
passed the name test: open the node directory and its `reg` file (either
failure sets `ret = -1` and leaves through `out`), then read and decode.
Returns the value of `ret` and of `*rmem` at `out`. -/
def visit_node (host : Endian) (rmem : rmtfs_mem) (de : dirent) : Int × rmtfs_mem :=
  match de.node with
  | none => (-1, rmem)
  | some dir =>
    match dir.reg with
    | none => (-1, rmem)
    | some file => read_reg host rmem file

/-- The `readdir` loop of `rmtfs_mem_enumerate` (lines 124-160), entered with
`ret = 0`: entries failing the name test are passed over, the first one that
passes it ends the loop (`break` or `goto out`), and an exhausted directory
leaves `ret` and `*rmem` as they were. -/
def enumerate_loop (host : Endian) (rmem : rmtfs_mem) : List dirent → Int × rmtfs_mem
  | [] => (0, rmem)
  | de :: rest =>
    if strncmp de.d_name "rmtfs".toList 5 ≠ 0 then
      enumerate_loop host rmem rest
    else
      visit_node host rmem de

/-- The function `rmtfs_mem_enumerate`: the returned `int` and the content of
`*rmem` afterwards. -/
def rmtfs_mem_enumerate (env : Env) (rmem : rmtfs_mem) : Int × rmtfs_mem :=
  match env.reserved_memory with
  | none => (-1, rmem)
  | some entries => enumerate_loop env.host rmem entries

/-- The function `rmtfs_mem_open`; `none` is `NULL`. -/
def rmtfs_mem_open (env : Env) : Option rmtfs_mem :=
  match env.malloc with
  | none => none
  | some block =>
    let r := rmtfs_mem_enumerate env block
    if r.1 < 0 then none
    else
      match env.dev_mem with
      | none => none
      | some fd =>
        match env.mmap r.2.size fd r.2.address with
        | none => none
        | some base => some { r.2 with base := base, fd := fd }

/-- The function `rmtfs_mem_alloc`; `alloc_size` is converted to `size_t` and
the address to the return type `int64_t`. -/
def rmtfs_mem_alloc (rmem : rmtfs_mem) (alloc_size : Nat) : Int :=
  let alloc_size := alloc_size % U64_RANGE
  if alloc_size > rmem.size then -EINVAL
  else to_int64 rmem.address

/-- The function `rmtfs_mem_free`, which has an empty body. -/
def rmtfs_mem_free (rmem : rmtfs_mem) : rmtfs_mem := rmem

/-- The function `rmtfs_mem_ptr`; the arguments are converted to the parameter
types `unsigned` and `size_t`, `start` and `end` are `uint64_t`. -/
def rmtfs_mem_ptr (rmem : rmtfs_mem) (phys_address len : Nat) : Option Nat :=
  let phys_address := phys_address % UINT_RANGE
  let len := len % U64_RANGE
  let start := phys_address
  let end_ := (start + len) % U64_RANGE
  if start < rmem.address ∨ end_ > (rmem.address + rmem.size) % U64_RANGE then none
  else some (ptr_sub (ptr_add rmem.base phys_address) rmem.address)

/-- The function `rmtfs_mem_close`: the content of `*rmem` afterwards. -/
def rmtfs_mem_close (rmem : rmtfs_mem) : rmtfs_mem :=
  { rmem with fd := -1, base := MAP_FAILED }


/-! ## Vocabulary of the specification -/

/-- The unsigned integer that `bytes` spell in big-endian order: the first
byte is the most significant one. -/
def big_endian : List Byte → Nat
  | [] => 0
  | b :: bs => b.val * 256 ^ bs.length + big_endian bs

/-- The name `d_name` starts with the literal "rmtfs". -/
def starts_with_rmtfs (d_name : List Char) : Prop := "rmtfs".toList <+: d_name

instance (d_name : List Char) : Decidable (starts_with_rmtfs d_name) := by
  unfold starts_with_rmtfs
  infer_instance

/-! ## A concrete system for the worked examples -/

/-- A block as `malloc` may hand it out: no field has a meaningful value. -/
def stale_block : rmtfs_mem := ⟨0xDEAD0000, 0xBEEF000, 0x5555, 7⟩

/-- A little-endian host with the given reserved-memory directory, where
`malloc` returns `stale_block`, `/dev/mem` opens as descriptor 3 and every
`mmap` succeeds at 0x7F0000000000. -/
def sample_env (entries : List dirent) : Env where
  host := .little
  malloc := some stale_block
  reserved_memory := some entries
  dev_mem := some 3
  mmap := fun _ _ _ => some 0x7F0000000000

/-- A directory entry named `name` whose node opens and whose `reg` file holds
the bytes `reg`. -/
def sample_entry (name : String) (reg : List Byte) : dirent :=
  ⟨name.toList, some ⟨some reg⟩⟩

/-! ## Library facts -/

/-- On strings without NUL, `strncmp s p |p|` is 0 exactly when `p` starts `s`. -/
theorem strncmp_eq_zero_iff (p : List Char) (hp : ∀ c ∈ p, c.toNat ≠ 0) (s : List Char) :
    strncmp s p p.length = 0 ↔ p <+: s := by
  induction p generalizing s with
  | nil => simp [strncmp]
  | cons b p ih =>
    have hb : b.toNat ≠ 0 := hp b (List.mem_cons_self b p)
    have hp2 : ∀ c ∈ p, c.toNat ≠ 0 := fun c hc => hp c (List.mem_cons_of_mem b hc)
    cases s with
    | nil =>
      simp only [List.length_cons, strncmp]
      constructor
      · intro h
        omega
      · intro h
        simp at h
    | cons a s =>
      simp only [List.length_cons, strncmp]
      by_cases hab : a = b
      · subst hab
        rw [if_pos rfl, ih hp2 s]
        simp [List.cons_prefix_cons]
      · rw [if_neg hab]
        have hne : a.toNat ≠ b.toNat := fun h => hab (by rw [← Char.ofNat_toNat a, h, Char.ofNat_toNat])
        constructor
        · intro h
          omega
        · intro h
          rw [List.cons_prefix_cons] at h
          exact absurd h.1.symm hab

/-- The test on line 125 selects exactly the names that start with "rmtfs". -/
theorem strncmp_rmtfs (d_name : List Char) :
    strncmp d_name "rmtfs".toList 5 = 0 ↔ starts_with_rmtfs d_name := by
  have h := strncmp_eq_zero_iff ['r', 'm', 't', 'f', 's'] (by decide) d_name
  exact h

/-- A big-endian host loads the big-endian value. -/
theorem load_big (bytes : List Byte) : load .big bytes = big_endian bytes := by
  have h : ∀ (bs : List Byte) (acc : Nat),
      bs.foldl (fun acc b => 256 * acc + b.val) acc = acc * 256 ^ bs.length + big_endian bs := by
    intro bs
    induction bs with
    | nil => intro acc; simp [big_endian]
    | cons b bs ih =>
      intro acc
      simp only [List.foldl_cons, List.length_cons, big_endian, ih]
      ring
  simpa [load] using h bytes 0

/-- The call `be32toh(reg.dw[i])` yields the big-endian value of the four bytes
of `reg.dw[i]` on either host. -/
theorem be32toh_load (host : Endian) (bytes : List Byte) (h : bytes.length = 4) :
    be32toh host (load host bytes) = big_endian bytes := by
  cases host with
  | big => simp [be32toh, load_big]
  | little =>
    match bytes, h with
    | [a, b, c, d], _ =>
      simp only [be32toh, load, bswap_32, big_endian, List.foldr, List.length]
      have ha := a.isLt
      have hb := b.isLt
      have hc := c.isLt
      have hd := d.isLt
      omega

/-- The call `be64toh(reg.qw[i])` yields the big-endian value of the eight
bytes of `reg.qw[i]` on either host. -/
theorem be64toh_load (host : Endian) (bytes : List Byte) (h : bytes.length = 8) :
    be64toh host (load host bytes) = big_endian bytes := by
  cases host with
  | big => simp [be64toh, load_big]
  | little =>
    match bytes, h with
    | [a, b, c, d, e, f, g, i], _ =>
      simp only [be64toh, load, bswap_64, big_endian, List.foldr, List.length]
      have ha := a.isLt
      have hb := b.isLt
      have hc := c.isLt
      have hd := d.isLt
      have he := e.isLt
      have hf := f.isLt
      have hg := g.isLt
      have hi := i.isLt
      omega

/-- A big-endian value of `n` bytes is below `256 ^ n`. -/
theorem big_endian_lt (bytes : List Byte) : big_endian bytes < 256 ^ bytes.length := by
  induction bytes with
  | nil => simp [big_endian]
  | cons b bs ih =>
    simp only [big_endian, List.length_cons, pow_succ]
    have hb := b.isLt
    nlinarith [Nat.zero_le (256 ^ bs.length)]


/-! ## Translation: `rmtfs_mem_ptr` -/

/-- As long as `start + len` does not wrap, `rmtfs_mem_ptr` returns `NULL` for
every request that starts below the window or ends above it. -/
theorem rmtfs_mem_ptr_rejects_of_no_wrap (rmem : rmtfs_mem) (phys_address len : Nat)
    (hp : phys_address < UINT_RANGE) (hl : len < U64_RANGE)
    (hsum : phys_address + len < U64_RANGE)
    (h : phys_address < rmem.address ∨ rmem.address + rmem.size < phys_address + len) :
    rmtfs_mem_ptr rmem phys_address len = none := by
  unfold rmtfs_mem_ptr
  simp only [UINT_RANGE, U64_RANGE] at *
  rw [if_pos]
  omega

/-- The bounds test of `rmtfs_mem_ptr` spelled out on the wrapped values. -/
theorem rmtfs_mem_ptr_eq_none_iff (rmem : rmtfs_mem) (phys_address len : Nat) :
    rmtfs_mem_ptr rmem phys_address len = none ↔
      (phys_address % UINT_RANGE < rmem.address ∨
        (rmem.address + rmem.size) % U64_RANGE
          < (phys_address % UINT_RANGE + len % U64_RANGE) % U64_RANGE) := by
  unfold rmtfs_mem_ptr
  simp only []
  split_ifs with h
  · simpa using h
  · simp only [false_iff]
    intro hc
    exact h hc

/-- Translating the whole window from its own address: the result is `base`
exactly when the address fits the `unsigned` parameter. -/
theorem rmtfs_mem_ptr_whole_window (rmem : rmtfs_mem)
    (hs : rmem.size < U64_RANGE) (hb : rmem.base < U64_RANGE) :
    rmtfs_mem_ptr rmem rmem.address rmem.size
      = if rmem.address < UINT_RANGE then some rmem.base else none := by
  unfold rmtfs_mem_ptr ptr_sub ptr_add
  simp only [UINT_RANGE, U64_RANGE] at *
  by_cases ha : rmem.address < 2 ^ 32
  · rw [if_neg (by omega), if_pos ha]
    congr 1
    omega
  · rw [if_pos (by omega), if_neg ha]

/-- Claim C1 (defect): a request whose exact end `phys_address + len` lies far
above the window is translated all the same, because `end = start + len` wraps
modulo 2^64. Window 0x9FC00000 + 0x200000, request (0x9FC00001, 2^64 - 1): the
result is the pointer `base + 1`, not `NULL`. -/
theorem rmtfs_mem_ptr_out_of_range_accepted :
    0x9FC00000 + 0x200000 < 0x9FC00001 + 0xFFFFFFFFFFFFFFFF ∧
      rmtfs_mem_ptr ⟨0x9FC00000, 0x200000, 0x7F0000000000, 3⟩ 0x9FC00001 0xFFFFFFFFFFFFFFFF
        = some 0x7F0000000001 := by
  decide

/-- Claim C2 (defect): the sum 0xFFFFFFFF + (2^64 - 1) does not fit in 64 bits,
yet on the window 0 + 2^32 the request is translated: `end` wraps to
0xFFFFFFFE and passes the bounds test. -/
theorem rmtfs_mem_ptr_overflow_accepted :
    U64_RANGE ≤ 0xFFFFFFFF + 0xFFFFFFFFFFFFFFFF ∧
      rmtfs_mem_ptr ⟨0, 0x100000000, 0x7F0000000000, 3⟩ 0xFFFFFFFF 0xFFFFFFFFFFFFFFFF
        = some 0x7F00FFFFFFFF := by
  decide

/-- Claim C7 as stated fails: after `rmtfs_mem_close` the window
0x9FC00000 + 0x200000 still translates (0x9FC00000, 0x10), to the pointer
`MAP_FAILED`, and still reserves 0x1000 bytes at 0x9FC00000. -/
theorem rmtfs_mem_close_then_use_succeeds :
    rmtfs_mem_ptr (rmtfs_mem_close ⟨0x9FC00000, 0x200000, 0x7F0000000000, 3⟩) 0x9FC00000 0x10
        = some MAP_FAILED ∧
      rmtfs_mem_alloc (rmtfs_mem_close ⟨0x9FC00000, 0x200000, 0x7F0000000000, 3⟩) 0x1000
        = 0x9FC00000 := by
  decide

/-- Claim C7 (amended): `rmtfs_mem_close` keeps `address` and `size`, sets `fd`
to -1 and `base` to `MAP_FAILED`. Afterwards `rmtfs_mem_alloc` answers as
before the close, `rmtfs_mem_ptr` takes its `return NULL` for exactly the
requests it rejected before, and any pointer it returns is computed from
`MAP_FAILED`, whatever the mapping base was. -/
theorem rmtfs_mem_close_spec (rmem : rmtfs_mem) (phys_address len alloc_size : Nat) :
    rmtfs_mem_close rmem = ⟨rmem.address, rmem.size, MAP_FAILED, -1⟩ ∧
      rmtfs_mem_alloc (rmtfs_mem_close rmem) alloc_size = rmtfs_mem_alloc rmem alloc_size ∧
      (rmtfs_mem_ptr (rmtfs_mem_close rmem) phys_address len = none ↔
        rmtfs_mem_ptr rmem phys_address len = none) ∧
      (∀ p, rmtfs_mem_ptr (rmtfs_mem_close rmem) phys_address len = some p →
        p = ptr_sub (ptr_add MAP_FAILED (phys_address % UINT_RANGE)) rmem.address) ∧
      (∀ stale, rmtfs_mem_ptr (rmtfs_mem_close { rmem with base := stale }) phys_address len
        = rmtfs_mem_ptr (rmtfs_mem_close rmem) phys_address len) := by
  refine ⟨rfl, rfl, ?_, ?_, fun _ => rfl⟩
  · rw [rmtfs_mem_ptr_eq_none_iff, rmtfs_mem_ptr_eq_none_iff]
    rfl
  · intro p hp
    unfold rmtfs_mem_ptr at hp
    simp only [rmtfs_mem_close] at hp
    split_ifs at hp
    exact (Option.some.inj hp).symm


/-! ## Discovery: `rmtfs_mem_enumerate` -/

/-- Entries whose name does not start with "rmtfs" are passed over. -/
theorem enumerate_loop_skip (host : Endian) (rmem : rmtfs_mem) (pre rest : List dirent)
    (hpre : ∀ d ∈ pre, ¬ starts_with_rmtfs d.d_name) :
    enumerate_loop host rmem (pre ++ rest) = enumerate_loop host rmem rest := by
  induction pre with
  | nil => rfl
  | cons d pre ih =>
    have hd : strncmp d.d_name "rmtfs".toList 5 ≠ 0 := fun h =>
      hpre d (List.mem_cons_self d pre) ((strncmp_rmtfs d.d_name).mp h)
    simp only [List.cons_append, enumerate_loop]
    rw [if_pos hd]
    exact ih (fun x hx => hpre x (List.mem_cons_of_mem d hx))

/-- The first entry whose name starts with "rmtfs" ends the loop. -/
theorem enumerate_loop_first_match (host : Endian) (rmem : rmtfs_mem)
    (pre post : List dirent) (e : dirent)
    (hpre : ∀ d ∈ pre, ¬ starts_with_rmtfs d.d_name) (he : starts_with_rmtfs e.d_name) :
    enumerate_loop host rmem (pre ++ e :: post) = visit_node host rmem e := by
  rw [enumerate_loop_skip host rmem pre (e :: post) hpre]
  have h0 : strncmp e.d_name "rmtfs".toList 5 = 0 := (strncmp_rmtfs e.d_name).mpr he
  simp only [enumerate_loop]
  rw [if_neg (fun h => h h0)]

/-- A directory without any matching name leaves `ret = 0` and `*rmem` as found. -/
theorem enumerate_loop_no_match (host : Endian) (rmem : rmtfs_mem) (entries : List dirent)
    (h : ∀ d ∈ entries, ¬ starts_with_rmtfs d.d_name) :
    enumerate_loop host rmem entries = (0, rmem) := by
  have := enumerate_loop_skip host rmem entries [] h
  simpa [enumerate_loop] using this

/-- The decoding of lines 144-155 in terms of the length of the `reg` file. -/
theorem read_reg_spec (host : Endian) (rmem : rmtfs_mem) (b : List Byte) :
    (b.length = 8 → read_reg host rmem b
        = (0, { rmem with address := big_endian (b.take 4),
                          size := big_endian ((b.drop 4).take 4) })) ∧
    (16 ≤ b.length → read_reg host rmem b
        = (0, { rmem with address := big_endian (b.take 8),
                          size := big_endian ((b.drop 8).take 8) })) ∧
    (b.length ≠ 8 → b.length < 16 → read_reg host rmem b = (-1, rmem)) := by
  refine ⟨?_, ?_, ?_⟩
  · intro h
    have hr : read b 16 = b := by
      simp only [read]
      exact List.take_of_length_le (by omega)
    simp only [read_reg, hr]
    rw [if_pos (by omega)]
    rw [be32toh_load host (b.take 4) (by simp; omega),
      be32toh_load host ((b.drop 4).take 4) (by simp; omega)]
  · intro h
    have hl : (read b 16).length = 16 := by
      simp only [read, List.length_take]
      omega
    have h1 : (read b 16).take 8 = b.take 8 := by
      simp [read, List.take_take]
    have h2 : ((read b 16).drop 8).take 8 = (b.drop 8).take 8 := by
      simp [read, List.drop_take, List.take_take]
    simp only [read_reg]
    rw [if_neg (by omega), if_pos (by omega), h1, h2]
    rw [be64toh_load host (b.take 8) (by simp; omega),
      be64toh_load host ((b.drop 8).take 8) (by simp; omega)]
  · intro h8 h16
    have hl : (read b 16).length = b.length := by
      simp only [read, List.length_take]
      omega
    simp only [read_reg]
    rw [if_neg (by omega), if_neg (by omega)]


/-- The big-endian value of zero bytes only is 0. -/
theorem big_endian_replicate_zero (n : Nat) : big_endian (List.replicate n 0) = 0 := by
  induction n with
  | zero => rfl
  | succ n ih => simp [List.replicate_succ, big_endian, ih]

/-- When no name matches, `rmtfs_mem_open` goes on to map whatever the block
from `malloc` happened to contain. -/
theorem rmtfs_mem_open_no_match (env : Env) (block : rmtfs_mem) (entries : List dirent)
    (fd : Int) (base : Nat)
    (hm : env.malloc = some block) (hd : env.reserved_memory = some entries)
    (hno : ∀ d ∈ entries, ¬ starts_with_rmtfs d.d_name)
    (hfd : env.dev_mem = some fd) (hmap : env.mmap block.size fd block.address = some base) :
    rmtfs_mem_open env = some { block with base := base, fd := fd } := by
  have he : rmtfs_mem_enumerate env block = (0, block) := by
    simp only [rmtfs_mem_enumerate, hd]
    exact enumerate_loop_no_match env.host block entries hno
  simp [rmtfs_mem_open, hm, he, hfd, hmap]

/-- Claim C5 as stated fails for a `reg` file longer than 16 bytes: `read` is
asked for 16 bytes and returns 16, so a 17-byte property is decoded as a
64-bit pair and discovery succeeds. -/
theorem rmtfs_mem_enumerate_long_reg_accepted :
    ([0, 0, 0, 0, 0x9F, 0xC0, 0, 0, 0, 0, 0, 0, 0, 0x20, 0, 0, 0xFF] : List Byte).length = 17 ∧
      rmtfs_mem_enumerate
          (sample_env [sample_entry "rmtfs@9fc00000"
            [0, 0, 0, 0, 0x9F, 0xC0, 0, 0, 0, 0, 0, 0, 0, 0x20, 0, 0, 0xFF]])
          stale_block
        = (0, ⟨0x9FC00000, 0x200000, 0x5555, 7⟩) := by
  decide

/-- Claim C5 (amended): let `b` be the content of the `reg` file of the first
entry whose name starts with "rmtfs". On either host byte order discovery
succeeds with the big-endian 32-bit pair when `b` has 8 bytes, succeeds with
the big-endian 64-bit pair in the first 16 bytes when `b` has 16 bytes or
more, and fails for every other length; the other fields of `*rmem` are not
touched. -/
theorem rmtfs_mem_enumerate_reg_by_length (env : Env) (rmem : rmtfs_mem)
    (pre post : List dirent) (e : dirent) (b : List Byte)
    (hdir : env.reserved_memory = some (pre ++ e :: post))
    (hpre : ∀ d ∈ pre, ¬ starts_with_rmtfs d.d_name)
    (he : starts_with_rmtfs e.d_name)
    (hreg : e.node = some ⟨some b⟩) :
    (b.length = 8 → rmtfs_mem_enumerate env rmem
        = (0, { rmem with address := big_endian (b.take 4),
                          size := big_endian ((b.drop 4).take 4) })) ∧
    (16 ≤ b.length → rmtfs_mem_enumerate env rmem
        = (0, { rmem with address := big_endian (b.take 8),
                          size := big_endian ((b.drop 8).take 8) })) ∧
    (b.length ≠ 8 → b.length < 16 → rmtfs_mem_enumerate env rmem = (-1, rmem)) := by
  have h : rmtfs_mem_enumerate env rmem = read_reg env.host rmem b := by
    simp only [rmtfs_mem_enumerate, hdir]
    rw [enumerate_loop_first_match env.host rmem pre post e hpre he]
    simp only [visit_node, hreg]
  rw [h]
  exact read_reg_spec env.host rmem b

/-- Witness for C5: the node "rmtfs-region" with `reg` = 9F C0 00 00 00 20 00 00
yields address 0x9FC00000 and size 0x200000. -/
theorem rmtfs_mem_enumerate_reg_by_length_witness :
    rmtfs_mem_enumerate
        (sample_env [sample_entry "rmtfs-region" [0x9F, 0xC0, 0, 0, 0, 0x20, 0, 0]])
        stale_block
      = (0, ⟨0x9FC00000, 0x200000, 0x5555, 7⟩) :=
  ((rmtfs_mem_enumerate_reg_by_length
      (sample_env [sample_entry "rmtfs-region" [0x9F, 0xC0, 0, 0, 0, 0x20, 0, 0]])
      stale_block [] [] (sample_entry "rmtfs-region" [0x9F, 0xC0, 0, 0, 0, 0x20, 0, 0])
      [0x9F, 0xC0, 0, 0, 0, 0x20, 0, 0] rfl (by simp) ⟨"-region".toList, rfl⟩ rfl).1 rfl).trans
    (by decide)

/-- Claim C6 (defect): on an empty reserved-memory directory
`rmtfs_mem_enumerate` returns 0, not a negative value, and leaves `*rmem` as
`malloc` delivered it; `rmtfs_mem_open` then maps that stale address and size
and returns a window. -/
theorem rmtfs_mem_enumerate_empty_directory_succeeds :
    rmtfs_mem_enumerate (sample_env []) stale_block = (0, stale_block) ∧
      rmtfs_mem_open (sample_env []) = some ⟨0xDEAD0000, 0xBEEF000, 0x7F0000000000, 3⟩ := by
  decide

/-- Claim C8 (defect): a 16-byte `reg` with address 2^32 and size 0x200000 is
discovered and mapped, but translating the whole window returns `NULL`: the
`unsigned` parameter drops the upper half of the address. -/
theorem rmtfs_mem_ptr_whole_window_rejected :
    rmtfs_mem_open
        (sample_env [sample_entry "rmtfs@100000000"
          [0, 0, 0, 1, 0, 0, 0, 0, 0, 0, 0, 0, 0, 0x20, 0, 0]])
        = some ⟨0x100000000, 0x200000, 0x7F0000000000, 3⟩ ∧
      rmtfs_mem_ptr ⟨0x100000000, 0x200000, 0x7F0000000000, 3⟩ 0x100000000 0x200000 = none := by
  decide

/-- Claim C10 as stated fails: the node "rmtfs-region" with `reg` =
9F C0 00 00 00 00 00 00 encodes size 0 and discovery succeeds with a window of
size 0. -/
theorem rmtfs_mem_enumerate_zero_size_accepted :
    rmtfs_mem_enumerate
        (sample_env [sample_entry "rmtfs-region" [0x9F, 0xC0, 0, 0, 0, 0, 0, 0]])
        stale_block
      = (0, ⟨0x9FC00000, 0, 0x5555, 7⟩) := by
  decide

/-- Claim C10 (amended): discovery does not look at the size. When the `reg`
file of the first matching entry is an address `a` of 4 or of 8 bytes followed
by as many zero bytes, discovery succeeds and the window has that address and
size 0. -/
theorem rmtfs_mem_enumerate_zero_size (env : Env) (rmem : rmtfs_mem)
    (pre post : List dirent) (e : dirent) (a : List Byte)
    (hdir : env.reserved_memory = some (pre ++ e :: post))
    (hpre : ∀ d ∈ pre, ¬ starts_with_rmtfs d.d_name)
    (he : starts_with_rmtfs e.d_name)
    (hreg : e.node = some ⟨some (a ++ List.replicate a.length 0)⟩)
    (ha : a.length = 4 ∨ a.length = 8) :
    rmtfs_mem_enumerate env rmem = (0, { rmem with address := big_endian a, size := 0 }) := by
  have h : rmtfs_mem_enumerate env rmem
      = read_reg env.host rmem (a ++ List.replicate a.length 0) := by
    simp only [rmtfs_mem_enumerate, hdir]
    rw [enumerate_loop_first_match env.host rmem pre post e hpre he]
    simp only [visit_node, hreg]
  rw [h]
  have hs := read_reg_spec env.host rmem (a ++ List.replicate a.length 0)
  rcases ha with h4 | h8
  · rw [hs.1 (by simp [h4])]
    have t1 : (a ++ List.replicate a.length 0).take 4 = a := by
      rw [← h4]; exact List.take_left' rfl
    have t2 : ((a ++ List.replicate a.length 0).drop 4).take 4 = List.replicate 4 0 := by
      rw [← h4, List.drop_left' rfl]; simp
    rw [t1, t2, big_endian_replicate_zero]
  · rw [hs.2.1 (by simp [h8])]
    have t1 : (a ++ List.replicate a.length 0).take 8 = a := by
      rw [← h8]; exact List.take_left' rfl
    have t2 : ((a ++ List.replicate a.length 0).drop 8).take 8 = List.replicate 8 0 := by
      rw [← h8, List.drop_left' rfl]; simp
    rw [t1, t2, big_endian_replicate_zero]

/-- Witness for C10: the 16-byte form with address 0x9FC00000 and size 0. -/
theorem rmtfs_mem_enumerate_zero_size_witness :
    rmtfs_mem_enumerate
        (sample_env [sample_entry "rmtfs@9fc00000"
          ([0, 0, 0, 0, 0x9F, 0xC0, 0, 0] ++ List.replicate 8 0)])
        stale_block
      = (0, ⟨0x9FC00000, 0, 0x5555, 7⟩) :=
  (rmtfs_mem_enumerate_zero_size
      (sample_env [sample_entry "rmtfs@9fc00000"
        ([0, 0, 0, 0, 0x9F, 0xC0, 0, 0] ++ List.replicate 8 0)])
      stale_block [] []
      (sample_entry "rmtfs@9fc00000" ([0, 0, 0, 0, 0x9F, 0xC0, 0, 0] ++ List.replicate 8 0))
      [0, 0, 0, 0, 0x9F, 0xC0, 0, 0] rfl (by simp) ⟨"@9fc00000".toList, rfl⟩ rfl
      (Or.inr rfl)).trans
    (by decide)

end Rmtfs
